import Mathlib

/-!
# Verification of the BodhiFlow two-phase pipeline core

Shallow embedding of the BodhiFlow orchestration engine:
text chunking and refinement (`utils/llm_refiner.py`), refinement task
building, range slicing and the parallel acquisition coordinator
(`nodes.py`), per-job acquisition (`utils/acquisition_processor.py`),
worker-count capping (`core/pocketflow_runner.py`, `utils/models_config.py`)
and flow-topology selection (`flow.py`).

Python strings are modelled as `List Char`; dictionaries keyed by strings as
insertion-ordered association lists; external collaborators (LLM/ASR calls,
downloads, filesystem writes) as explicit function parameters ("environments").
-/

namespace BodhiFlow

/-! ## Text model: paragraphs, words, joining

`text.split("\n\n")`, `"\n\n".join(parts)` and `len(s.split())` from Python,
modelled on `List Char`. -/

/-- The blank-line separator `"\n\n"` used for paragraph splitting and joining. -/
def blankSep : List Char := ['\n', '\n']

/-- Prepend a character to the first piece of a split (the piece currently
being accumulated while scanning left to right). -/
def consHead (c : Char) : List (List Char) → List (List Char)
  | [] => [[c]]
  | p :: ps => (c :: p) :: ps

/-- Model of Python `text.split("\n\n")`: split on each non-overlapping
occurrence of a double newline, scanning left to right, keeping empty pieces.
Always returns at least one piece (Python `"".split(sep) == [""]`). -/
def splitParas : List Char → List (List Char)
  | [] => [[]]
  | c :: rest =>
    if c = '\n' ∧ rest.head? = some '\n' then [] :: splitParas rest.tail
    else consHead c (splitParas rest)
termination_by l => l.length
decreasing_by
  · simp [List.length_tail]; omega
  · simp

/-- Model of Python `sep.join(parts)`. -/
def joinSep (sep : List Char) : List (List Char) → List Char
  | [] => []
  | [p] => p
  | p :: q :: ps => p ++ sep ++ joinSep sep (q :: ps)

/-- Helper for `countWords`: `inWord` records whether the previous character
was part of a word. -/
def countWordsAux : List Char → Bool → Nat
  | [], _ => 0
  | c :: rest, inWord =>
    if c.isWhitespace then countWordsAux rest false
    else (if inWord then 0 else 1) + countWordsAux rest true

/-- Model of Python `len(s.split())`: the number of maximal runs of
non-whitespace characters. -/
def countWords (s : List Char) : Nat := countWordsAux s false

/-! ## `split_text_into_chunks` (utils/llm_refiner.py lines 97-135)

Splits text into chunks of approximately `chunk_size` words, at paragraph
boundaries, by greedy accumulation. -/

/-- The loop state of `split_text_into_chunks`: completed chunks, the
paragraphs of the chunk under construction, and its word count. -/
structure ChunkState where
  chunks : List (List Char)
  current_chunk : List (List Char)
  current_word_count : Nat

/-- One iteration of the `for paragraph in paragraphs` loop of
`split_text_into_chunks`: start a new chunk when adding the paragraph would
exceed the word budget and the current chunk is non-empty, else accumulate. -/
def chunkStep (chunk_size : Nat) (st : ChunkState) (paragraph : List Char) : ChunkState :=
  let paragraph_word_count := countWords paragraph
  if st.current_word_count + paragraph_word_count > chunk_size ∧ st.current_chunk ≠ [] then
    { chunks := st.chunks ++ [joinSep blankSep st.current_chunk]
      current_chunk := [paragraph]
      current_word_count := paragraph_word_count }
  else
    { chunks := st.chunks
      current_chunk := st.current_chunk ++ [paragraph]
      current_word_count := st.current_word_count + paragraph_word_count }

/-- Model of `split_text_into_chunks(text, chunk_size)`: split into paragraphs
on `"\n\n"`, greedily accumulate paragraphs into word-bounded chunks, and
append the final partial chunk. -/
def split_text_into_chunks (text : List Char) (chunk_size : Nat) : List (List Char) :=
  let paragraphs := splitParas text
  let st := paragraphs.foldl (chunkStep chunk_size) ⟨[], [], 0⟩
  if st.current_chunk ≠ [] then st.chunks ++ [joinSep blankSep st.current_chunk]
  else st.chunks

/-! ## Range slicing (nodes.py lines 45-60) -/

/-- Model of `_apply_range(items, start_index, end_index)`:
`items[start_index - 1 : end_index]` when `end_index > 0`, else
`items[start_index - 1 :]`, for the 1-based start indices the callers pass
(a Python `start_index` of 0 would index from the end and is not modelled). -/
def _apply_range {α : Type} (items : List α) (start_index end_index : Nat) : List α :=
  if end_index > 0 then (items.take end_index).drop (start_index - 1)
  else items.drop (start_index - 1)

/-! ## String replacement and helpers -/

/-- Scan of Python `s.replace(pat, repl)` for a non-empty pattern: replace
each non-overlapping occurrence, scanning left to right. Every step consumes
at least one character, so the recursion is structured over a step budget of
the string's length (the `0` case is unreachable from `replaceAll`). -/
def replaceAllAux (pat repl : List Char) : Nat → List Char → List Char
  | _, [] => []
  | 0, s => s
  | fuel + 1, c :: rest =>
    if pat.isPrefixOf (c :: rest) ∧ pat ≠ [] then
      repl ++ replaceAllAux pat repl fuel (rest.drop (pat.length - 1))
    else c :: replaceAllAux pat repl fuel rest

/-- Model of Python `s.replace(pat, repl)` for a non-empty pattern (an empty
pattern is treated as no occurrence; the source only replaces non-empty
literals). -/
def replaceAll (pat repl s : List Char) : List Char := replaceAllAux pat repl s.length s

/-! ## `refine_text_with_llm` (utils/llm_refiner.py lines 37-94) -/

/-- The literal placeholder token detecting the verbatim-transcript
(Meeting Minutes) style template. -/
def fullTranscriptTok : List Char := "[full_transcript_text]".toList

/-- The placeholder substituted with the output language. -/
def languageTok : List Char := "[Language]".toList

/-- The continuation framing injected before every chunk after the first. -/
def continuationNote : List Char :=
  "\n\n[This is a continuation of the previous text. Please continue refining in the same style.]\n\n".toList

/-- Model of Python `pat in s` (substring containment). -/
def containsTok (pat : List Char) : List Char → Bool
  | [] => pat.isEmpty
  | c :: rest => pat.isPrefixOf (c :: rest) || containsTok pat rest

/-- The `for i, chunk in enumerate(chunks)` loop of `refine_text_with_llm`:
chunk 0 is prompted directly, every later chunk with the continuation note. -/
def refineChunksLoop (llm : List Char → List Char) (prompt_with_language : List Char) :
    Nat → List (List Char) → List (List Char)
  | _, [] => []
  | i, chunk :: rest =>
    (if i = 0 then llm (prompt_with_language ++ chunk)
     else llm (prompt_with_language ++ continuationNote ++ chunk)) ::
      refineChunksLoop llm prompt_with_language (i + 1) rest

/-- Model of `refine_text_with_llm`, with the LLM call abstracted as
`llm : prompt → response` (provider selection and retries live behind it).
`chunk_size = none` models Python `None`; by Python truthiness a configured
`chunk_size` of `0` behaves like `None`, which the `getD 0` mirrors. -/
def refine_text_with_llm (llm : List Char → List Char)
    (text_content style_prompt_template language : List Char)
    (chunk_size : Option Nat) : List Char :=
  if containsTok fullTranscriptTok style_prompt_template then
    llm (replaceAll fullTranscriptTok text_content style_prompt_template)
  else
    let prompt_with_language := replaceAll languageTok language style_prompt_template
    let cs := chunk_size.getD 0
    if cs ≠ 0 ∧ countWords text_content > cs then
      joinSep blankSep
        (refineChunksLoop llm prompt_with_language 0 (split_text_into_chunks text_content cs))
    else
      llm (prompt_with_language ++ text_content)

/-! ## `create_refinement_tasks` (utils/llm_refiner.py lines 138-183) -/

/-- The last path component, everything after the final slash: model of
`Path(p).name` for slash-separated paths without a trailing slash. -/
def lastComponent (p : List Char) : List Char :=
  ((p.reverse.takeWhile (fun c => c != '/')).reverse)

/-- The index of the last dot of a file name, if any. -/
def lastDotIdx (name : List Char) : Option Nat :=
  ((List.range name.length).filter (fun i => name.getD i ' ' == '.')).getLast?

/-- Drop the final extension: model of `Path(name).stem`, which cuts at the
last dot when that dot is neither the first nor the last character. -/
def dropLastExt (name : List Char) : List Char :=
  match lastDotIdx name with
  | some i => if 0 < i ∧ i + 1 < name.length then name.take i else name
  | none => name

/-- Model of `Path(p).stem`. -/
def pathStem (p : List Char) : List Char := dropLastExt (lastComponent p)

/-- The suffix stripped from transcript file stems. -/
def rawTranscriptSuffix : List Char := "_raw_transcript".toList

/-- The video title derived from a transcript path:
`Path(transcript_file).stem.replace("_raw_transcript", "")`. -/
def videoTitleOf (transcript_file : List Char) : List Char :=
  replaceAll rawTranscriptSuffix [] (pathStem transcript_file)

/-- Characters kept by the `[^\w\-]+` pattern of `create_refinement_tasks`
(ASCII word characters plus hyphen; non-ASCII word characters are not
modelled). -/
def isStyleKeepChar (c : Char) : Bool := c.isAlphanum || c == '_' || c == '-'

/-- Model of `re.sub(r"[^\w\-]+", "_", style_name)`: each maximal run of
non-kept characters becomes a single underscore. -/
def safeStyleName : List Char → List Char
  | [] => []
  | c :: rest =>
    if isStyleKeepChar c then c :: safeStyleName rest
    else '_' :: safeStyleName (rest.dropWhile (fun d => !(isStyleKeepChar d)))
termination_by l => l.length
decreasing_by
  · simp
  · simp only [List.length_cons]
    have := (List.dropWhile_sublist (l := rest) (fun d => !(isStyleKeepChar d))).length_le
    omega

/-- One refinement task dictionary. `language = none` models the single-run
case where the optional key is absent. -/
structure RefinementTask where
  transcript_file : List Char
  style_name : List Char
  style_prompt : List Char
  output_file : List Char
  video_title : List Char
  language : Option (List Char)
deriving DecidableEq

/-- The output file path `output_dir` / `video_title` ` [safe_style_name].md`
(the `output_path.mkdir` side effect of the source is not modelled). -/
def outputFileFor (output_dir video_title style_name : List Char) : List Char :=
  output_dir ++ ['/'] ++ video_title ++ " [".toList ++ safeStyleName style_name ++ "].md".toList

/-- Model of `create_refinement_tasks(transcript_files, styles_data,
output_dir, language)`: the cross-product of transcript files and styles, in
source order. -/
def create_refinement_tasks (transcript_files : List (List Char))
    (styles_data : List (List Char × List Char)) (output_dir : List Char)
    (language : Option (List Char)) : List RefinementTask :=
  transcript_files.flatMap (fun transcript_file =>
    let video_title := videoTitleOf transcript_file
    styles_data.map (fun sd =>
      { transcript_file := transcript_file
        style_name := sd.1
        style_prompt := sd.2
        output_file := outputFileFor output_dir video_title sd.1
        video_title := video_title
        language := language }))

/-! ## Worker capping (core/pocketflow_runner.py lines 30-35,
utils/models_config.py lines 90-105) -/

/-- One model entry of the models configuration, restricted to the fields the
capping logic reads. -/
structure AsrModelEntry where
  id : List Char
  max_concurrency : Option Nat

/-- Modelled from the spec: `get_asr_model_max_concurrency` is imported by
`core/pocketflow_runner.py` from `utils/models_config.py`, but its definition
is not among the provided sources. Per the spec ("a hard per-ASR-provider
concurrency ceiling (declared by provider config)", and the design note
"a capability declared by each provider's configuration entry
(`max_concurrency : int | null`)"), the lookup returns the `max_concurrency`
declared by the entry with the given id, or nothing when the entry is absent
or declares none — mirroring the provided Phase-2 analogue
`get_phase2_model_max_concurrency`. The model table is explicit. -/
def get_asr_model_max_concurrency (models : List AsrModelEntry)
    (asr_model_id : List Char) : Option Nat :=
  match models.find? (fun m => m.id == asr_model_id) with
  | none => none
  | some entry => entry.max_concurrency

/-- Model of `_capped_phase1_workers(requested, asr_model_id)`: cap the
requested Phase-1 worker count by the ASR model's `max_concurrency`. -/
def _capped_phase1_workers (models : List AsrModelEntry) (requested : Nat)
    (asr_model_id : List Char) : Nat :=
  match get_asr_model_max_concurrency models asr_model_id with
  | none => requested
  | some cap => min requested cap

/-! ## Flow topology selection (flow.py) -/

/-- The six PocketFlow node kinds of the BodhiFlow graphs. -/
inductive NodeId
  | inputExpansion
  | parallelAcquisition
  | refinementTaskCreator
  | asyncRefinement
  | tempCleanup
  | flowCompletion
deriving DecidableEq

/-- A flow graph: a start node and labelled transition edges. -/
structure Flow where
  start : NodeId
  edges : List (NodeId × List Char × NodeId)
deriving DecidableEq

/-- Model of `create_bodhi_flow()` (flow.py lines 25-67): the full two-phase
topology. -/
def create_bodhi_flow : Flow :=
  { start := .inputExpansion
    edges :=
      [ (.inputExpansion, "start_parallel_acquisition".toList, .parallelAcquisition)
      , (.inputExpansion, "phase_1_complete_no_input".toList, .refinementTaskCreator)
      , (.parallelAcquisition, "phase_1_complete".toList, .refinementTaskCreator)
      , (.refinementTaskCreator, "start_async_refinement".toList, .asyncRefinement)
      , (.refinementTaskCreator, "phase_2_complete_no_tasks".toList, .tempCleanup)
      , (.asyncRefinement, "phase_2_complete".toList, .tempCleanup)
      , (.tempCleanup, "cleanup_complete".toList, .flowCompletion) ] }

/-- Model of `create_phase_1_only_flow()` (flow.py lines 70-94). -/
def create_phase_1_only_flow : Flow :=
  { start := .inputExpansion
    edges :=
      [ (.inputExpansion, "start_parallel_acquisition".toList, .parallelAcquisition)
      , (.inputExpansion, "phase_1_complete_no_input".toList, .flowCompletion)
      , (.parallelAcquisition, "phase_1_complete".toList, .tempCleanup)
      , (.tempCleanup, "cleanup_complete".toList, .flowCompletion) ] }

/-- Model of `create_phase_2_only_flow()` (flow.py lines 97-120). -/
def create_phase_2_only_flow : Flow :=
  { start := .refinementTaskCreator
    edges :=
      [ (.refinementTaskCreator, "start_async_refinement".toList, .asyncRefinement)
      , (.refinementTaskCreator, "phase_2_complete_no_tasks".toList, .flowCompletion)
      , (.asyncRefinement, "phase_2_complete".toList, .flowCompletion) ] }

/-- Model of `create_flow_for_phases(run_phase_1, run_phase_2)` (flow.py lines
124-148); the raised `ValueError` is modelled as `Except.error`. Construction
happens before `flow.run`, so an error here precedes any stage execution. -/
def create_flow_for_phases (run_phase_1 run_phase_2 : Bool) : Except (List Char) Flow :=
  if run_phase_1 && run_phase_2 then .ok create_bodhi_flow
  else if run_phase_1 && !run_phase_2 then .ok create_phase_1_only_flow
  else if !run_phase_1 && run_phase_2 then .ok create_phase_2_only_flow
  else .error ("At least one phase must be selected (run_phase_1 or run_phase_2)".toList)

/-! ## The parallel acquisition coordinator (nodes.py lines 411-553) -/

/-- Result statuses. -/
inductive Status
  | success
  | failure
  | cancelled
deriving DecidableEq

/-- An acquisition result dictionary. `job_id = none` models a result dict
without the `job_id` key (the coordinator's exception-path result carries
none). -/
structure AcqResult where
  status : Status
  video_title : List Char
  transcript_file : Option (List Char)
  transcript_text : Option (List Char)
  error : Option (List Char)
  job_id : Option Nat
deriving DecidableEq

/-- One submitted acquisition job as the coordinator's collection loop sees
it: the queue entry's `original_title`, and the outcome `future.result()`
delivers — either a result dictionary or a raised exception's message. The
job list is given in completion order (the order `as_completed` yields). -/
structure JobSpec where
  title : List Char
  outcome : Except (List Char) AcqResult

/-- Python `results[key] = value` on an insertion-ordered dictionary. -/
def dictInsert {β : Type} (m : List (List Char × β)) (k : List Char) (v : β) :
    List (List Char × β) :=
  if m.any (fun p => p.1 == k) then m.map (fun p => if p.1 == k then (k, v) else p)
  else m ++ [(k, v)]

/-- The failure result built by the coordinator's `except` handler
(nodes.py lines 509-516); it has no `job_id` key. -/
def exceptionResult (video_title msg : List Char) : AcqResult :=
  { status := .failure
    video_title := video_title
    transcript_file := none
    transcript_text := none
    error := some msg
    job_id := none }

/-- The `for future in as_completed(...)` loop of
`ParallelAcquisitionCoordinatorNode.exec` (nodes.py lines 482-523).
`stopCheck k` is the value of the cooperative stop flag at its k-th poll
(poll 0 happens before the pool starts; one poll per iteration follows). On a
positive poll the remaining futures are cancelled and the loop breaks, leaving
`results` as collected so far. -/
def coordLoop (stopCheck : Nat → Bool) :
    List JobSpec → Nat → List (List Char × AcqResult) → List (List Char × AcqResult)
  | [], _, results => results
  | job :: rest, polls, results =>
    if stopCheck polls then results
    else
      let results2 :=
        match job.outcome with
        | .ok r => dictInsert results job.title r
        | .error msg => dictInsert results job.title (exceptionResult job.title msg)
      coordLoop stopCheck rest (polls + 1) results2

/-- Model of `ParallelAcquisitionCoordinatorNode.exec` (nodes.py lines
448-538): the returned result map, an insertion-ordered dictionary keyed by
each job's `original_title`. Directory creation, status and progress
callbacks are not modelled. -/
def coordinatorExec (jobs : List JobSpec) (stopCheck : Nat → Bool) :
    List (List Char × AcqResult) :=
  if stopCheck 0 then [] else coordLoop stopCheck jobs 1 []

/-! ## Per-job acquisition (utils/acquisition_processor.py lines 300-628) -/

/-- The source-type variants reaching `process_single_video_acquisition`. -/
inductive SourceType
  | youtube_url
  | teams_meeting_url
  | local_file
  | podcast_audio
  | text_document
deriving DecidableEq

/-- The queue entry fields the acquisition function reads. -/
structure VideoData where
  source_path : List Char
  source_type : SourceType
  original_title : List Char
  job_id : Nat

/-- The configuration fields the acquisition control flow branches on. -/
structure AcqConfig where
  intermediate_dir : List Char
  disable_ai_transcribe : Bool

/-- The external collaborators of `process_single_video_acquisition`, each
able to raise (`Except.error msg` models a raised exception with message
`msg`): transcript download, audio download/extraction, chunking,
transcription, document text extraction, and the raw-transcript save (which
returns the written file's path). -/
structure AcqEnv where
  download_youtube_transcript : List Char → Except (List Char) (Option (List Char))
  download_youtube_audio : List Char → Except (List Char) (Option (List Char))
  download_teams_meeting_recording : List Char → Except (List Char) (Option (List Char))
  download_podcast_audio : List Char → Except (List Char) (Option (List Char))
  extract_audio_from_video : List Char → Except (List Char) (Option (List Char))
  chunk_audio_on_silence : List Char → Except (List Char) (List (List Char))
  transcribe_audio_chunks : List (List Char) → Except (List Char) (Option (List Char))
  extract_text_from_file : List Char → Except (List Char) (Option (List Char))
  extract_text_from_url : List Char → Except (List Char) (Option (List Char))
  save_raw_transcript : List Char → List Char → List Char → Except (List Char) (List Char)

/-- Python truthiness of an optional string (`None` and `""` are falsy). -/
def optTruthy : Option (List Char) → Bool
  | none => false
  | some t => !t.isEmpty

/-- Python `not raw_text or not raw_text.strip()`: no text, or only
whitespace. -/
def blankOpt : Option (List Char) → Bool
  | none => true
  | some t => t.all (fun c => c.isWhitespace)

/-- Whether a source path is a URL (`startswith("http://"/"https://")`). -/
def isHttpUrl (p : List Char) : Bool :=
  "http://".toList.isPrefixOf p || "https://".toList.isPrefixOf p

/-- The per-source-type acquisition logic of `process_single_video_acquisition`
(acquisition_processor.py lines 369-569): produce the raw text (if any) and,
for YouTube sources, the `last_error` diagnostic. Audio/chunk cleanup side
effects are not modelled. -/
def computeRawText (env : AcqEnv) (v : VideoData) (c : AcqConfig) :
    Except (List Char) (Option (List Char) × Option (List Char)) := do
  match v.source_type with
  | .youtube_url =>
    let t0 ← env.download_youtube_transcript v.source_path
    match t0 with
    | some t => pure (some t, none)
    | none =>
      if c.disable_ai_transcribe then
        pure (none, some ("No transcript available and AI transcription is disabled".toList))
      else do
        let audio ← env.download_youtube_audio v.source_path
        match audio with
        | none =>
          pure (none,
            some ("Failed to download YouTube audio (video may be private/restricted; try Cookie file)".toList))
        | some audio_path => do
          let chunk_paths ← env.chunk_audio_on_silence audio_path
          if chunk_paths.isEmpty then
            pure (none, some ("No audio chunks produced".toList))
          else do
            let raw ← env.transcribe_audio_chunks chunk_paths
            let last_error :=
              if blankOpt raw then some ("ASR returned empty transcript".toList) else none
            pure (raw, last_error)
  | .teams_meeting_url =>
    let mv ← env.download_teams_meeting_recording v.source_path
    match mv with
    | none => pure (none, none)
    | some meeting_video_path => do
      let audio ← env.extract_audio_from_video meeting_video_path
      match audio with
      | none => pure (none, none)
      | some audio_path => do
        let chunk_paths ← env.chunk_audio_on_silence audio_path
        if chunk_paths.isEmpty then pure (none, none)
        else do
          let raw ← env.transcribe_audio_chunks chunk_paths
          pure (raw, none)
  | .local_file =>
    let audio ← env.extract_audio_from_video v.source_path
    match audio with
    | none => pure (none, none)
    | some audio_path => do
      let chunk_paths ← env.chunk_audio_on_silence audio_path
      if chunk_paths.isEmpty then pure (none, none)
      else do
        let raw ← env.transcribe_audio_chunks chunk_paths
        pure (raw, none)
  | .text_document =>
    let raw ←
      if isHttpUrl v.source_path then env.extract_text_from_url v.source_path
      else env.extract_text_from_file v.source_path
    pure (raw, none)
  | .podcast_audio =>
    let audio ← env.download_podcast_audio v.source_path
    match audio with
    | none => pure (none, none)
    | some audio_path => do
      let chunk_paths ← env.chunk_audio_on_silence audio_path
      if chunk_paths.isEmpty then pure (none, none)
      else do
        let raw ← env.transcribe_audio_chunks chunk_paths
        pure (raw, none)

/-- The error message of the failure branch (acquisition_processor.py lines
604-610). -/
def acquisitionErrorMsg (source_type : SourceType) (last_error : Option (List Char)) :
    List Char :=
  if source_type = .text_document then ("Failed to extract text from document".toList)
  else
    match source_type, last_error with
    | .youtube_url, some le => "Failed to extract transcript from source: ".toList ++ le
    | _, _ => "Failed to extract transcript from source".toList

/-- Model of `process_single_video_acquisition(video_data, config)`
(acquisition_processor.py lines 300-628): compute the raw text per source
type, then build the success or failure result; any exception raised inside
is caught by the outer handler and becomes a failure result carrying the
exception's message. The metadata-sidecar write (wrapped in
`try .. except: pass` in the source) and logging are not modelled. -/
def process_single_video_acquisition (env : AcqEnv) (v : VideoData) (c : AcqConfig) :
    AcqResult :=
  let body : Except (List Char) AcqResult := do
    let pair ← computeRawText env v c
    match pair.1 with
    | some t =>
      if t.isEmpty then
        pure { status := .failure
               video_title := v.original_title
               transcript_file := none
               transcript_text := none
               error := some (acquisitionErrorMsg v.source_type pair.2)
               job_id := some v.job_id }
      else do
        let transcript_file ← env.save_raw_transcript t v.original_title c.intermediate_dir
        pure { status := .success
               video_title := v.original_title
               transcript_file := some transcript_file
               transcript_text := some t
               error := none
               job_id := some v.job_id }
    | none =>
      pure { status := .failure
             video_title := v.original_title
             transcript_file := none
             transcript_text := none
             error := some (acquisitionErrorMsg v.source_type pair.2)
             job_id := some v.job_id }
  match body with
  | .ok r => r
  | .error e =>
    { status := .failure
      video_title := v.original_title
      transcript_file := none
      transcript_text := none
      error := some e
      job_id := some v.job_id }

/-! ## Per-task refinement (utils/llm_refiner.py lines 186-294) -/

/-- The metadata sidecar fields the enrichment logic touches; an empty
description / tags list models the absent (or falsy) dictionary entry the
source tests with `not meta.get(...)`. -/
structure SidecarMeta where
  description : List Char
  tags : List (List Char)
  style : List Char
  model_used : List Char
deriving DecidableEq

/-- The configuration fields `async_refine_single_task` reads. -/
structure GeminiConfig where
  chunk_size : Option Nat
  language : List Char
  metadata_enhancement_enabled : Bool
  phase2_model_id : List Char

/-- The external collaborators of `async_refine_single_task`: the LLM call
(shared with `refine_text_with_llm`), transcript loading, sidecar metadata
loading, the enrichment LLM call (description and tags), front-matter
construction, and the output write. -/
structure RefineEnv where
  llm : List Char → List Char
  load_raw_transcript : List Char → Except (List Char) (List Char)
  load_metadata_for_transcript : List Char → SidecarMeta
  enhance_metadata_with_llm :
    List Char → List Char → Except (List Char) (List Char × List (List Char))
  build_yaml_front_matter : SidecarMeta → List Char
  save_text_to_file : List Char → List Char → Except (List Char) Unit

/-- One refinement result dictionary. -/
structure RefineResult where
  status : Status
  task_id : List Char
  output_file : List Char
  video_title : List Char
  style_name : List Char
  error : Option (List Char)
deriving DecidableEq

/-- The enrichment merge of `async_refine_single_task` (llm_refiner.py lines
243-267): any failure of the enrichment call degrades to empty description
and tags; then only the absent (falsy) fields are filled in. -/
def mergeEnrichment (meta : SidecarMeta)
    (enriched : Except (List Char) (List Char × List (List Char))) : SidecarMeta :=
  let add := match enriched with
    | .ok a => a
    | .error _ => ([], [])
  { meta with
    description := if meta.description.isEmpty then add.1 else meta.description
    tags := if meta.tags.isEmpty then add.2 else meta.tags }

/-- Model of `async_refine_single_task(task, gemini_config)` (llm_refiner.py
lines 186-294). The content written by `save_text_to_file` is made observable
as the second component of the returned pair (`none` when the task failed
before writing). The per-task language falls back to the configured one;
`model_used` is the Phase-2 model id. -/
def async_refine_single_task (env : RefineEnv) (task : RefinementTask)
    (cfg : GeminiConfig) : RefineResult × Option (List Char) :=
  let task_id := task.video_title ++ ['_'] ++ task.style_name
  let body : Except (List Char) (List Char) := do
    let raw_text ← env.load_raw_transcript task.transcript_file
    let lang := task.language.getD cfg.language
    let refined_text := refine_text_with_llm env.llm raw_text task.style_prompt lang cfg.chunk_size
    let meta0 := env.load_metadata_for_transcript task.video_title
    let meta1 :=
      if cfg.metadata_enhancement_enabled then
        mergeEnrichment meta0 (env.enhance_metadata_with_llm raw_text lang)
      else meta0
    let meta2 := { meta1 with style := task.style_name, model_used := cfg.phase2_model_id }
    let final_md := env.build_yaml_front_matter meta2 ++ refined_text
    let _ ← env.save_text_to_file final_md task.output_file
    pure final_md
  match body with
  | .ok final_md =>
    ({ status := .success
       task_id := task_id
       output_file := task.output_file
       video_title := task.video_title
       style_name := task.style_name
       error := none },
     some final_md)
  | .error e =>
    ({ status := .failure
       task_id := task_id
       output_file := task.output_file
       video_title := task.video_title
       style_name := task.style_name
       error := some e },
     none)

/-- The result the collection loop records for one completed job: the
returned dictionary, or the exception-path failure marker. -/
def interpOutcome (j : JobSpec) : AcqResult :=
  match j.outcome with
  | .ok r => r
  | .error msg => exceptionResult j.title msg

/-- Python `results[key]` read on the association-list dictionary (`none`
models a `KeyError`). -/
def lookupDict {β : Type} (m : List (List Char × β)) (k : List Char) : Option β :=
  (m.find? (fun p => p.1 == k)).map Prod.snd

/-! ## Concrete sample inputs for the witnesses -/

/-- A successful acquisition result for a sample job. -/
def sampleOk (title : List Char) (n : Nat) : AcqResult :=
  { status := .success
    video_title := title
    transcript_file := some ("f".toList ++ title)
    transcript_text := some ("text".toList)
    error := none
    job_id := some n }

/-- Three jobs, all succeeding, with distinct titles, in completion order. -/
def c1Jobs : List JobSpec :=
  [ ⟨"A".toList, .ok (sampleOk ("A".toList) 1)⟩
  , ⟨"B".toList, .ok (sampleOk ("B".toList) 2)⟩
  , ⟨"C".toList, .ok (sampleOk ("C".toList) 3)⟩ ]

/-- Five jobs in completion order; job 3 deterministically raises. -/
def c5Jobs : List JobSpec :=
  [ ⟨"J1".toList, .ok (sampleOk ("J1".toList) 1)⟩
  , ⟨"J2".toList, .ok (sampleOk ("J2".toList) 2)⟩
  , ⟨"J3".toList, .error ("boom".toList)⟩
  , ⟨"J4".toList, .ok (sampleOk ("J4".toList) 4)⟩
  , ⟨"J5".toList, .ok (sampleOk ("J5".toList) 5)⟩ ]

/-- An acquisition environment where document extraction yields text and the
transcript save succeeds; the media collaborators are inert. -/
def c6EnvOk : AcqEnv :=
  { download_youtube_transcript := fun _ => .ok none
    download_youtube_audio := fun _ => .ok none
    download_teams_meeting_recording := fun _ => .ok none
    download_podcast_audio := fun _ => .ok none
    extract_audio_from_video := fun _ => .ok none
    chunk_audio_on_silence := fun _ => .ok []
    transcribe_audio_chunks := fun _ => .ok none
    extract_text_from_file := fun _ => .ok (some ("hello world".toList))
    extract_text_from_url := fun _ => .ok none
    save_raw_transcript := fun _ title dir => .ok (dir ++ ['/'] ++ title) }

/-- An acquisition environment where document extraction produces no text. -/
def c6EnvNone : AcqEnv :=
  { c6EnvOk with extract_text_from_file := fun _ => .ok none }

/-- A sample local-document acquisition job. -/
def c6Video : VideoData :=
  { source_path := "docs/notes.txt".toList
    source_type := .text_document
    original_title := "notes".toList
    job_id := 1 }

/-- A sample acquisition configuration. -/
def c6Cfg : AcqConfig :=
  { intermediate_dir := "intermediate".toList
    disable_ai_transcribe := false }

/-- A sample sidecar with a pre-existing non-empty description and tags. -/
def c7Meta : SidecarMeta :=
  { description := "original description".toList
    tags := ["orig-tag".toList]
    style := []
    model_used := [] }

/-- A refinement environment whose enrichment call succeeds with a different
description and different tags than the sidecar already holds. -/
def c7EnvOk : RefineEnv :=
  { llm := fun p => p
    load_raw_transcript := fun _ => .ok ("raw words".toList)
    load_metadata_for_transcript := fun _ => c7Meta
    enhance_metadata_with_llm := fun _ _ => .ok ("different description".toList, ["new-tag".toList])
    build_yaml_front_matter := fun m => m.description ++ m.style
    save_text_to_file := fun _ _ => .ok () }

/-- The same environment with a failing enrichment call. -/
def c7EnvErr : RefineEnv :=
  { c7EnvOk with enhance_metadata_with_llm := fun _ _ => .error ("enrichment failed".toList) }

/-- A sample refinement task. -/
def c7Task : RefinementTask :=
  { transcript_file := "intermediate/notes_raw_transcript.txt".toList
    style_name := "Summary".toList
    style_prompt := "Summarize in [Language]: ".toList
    output_file := "out/notes [Summary].md".toList
    video_title := "notes".toList
    language := none }

/-- A sample refinement configuration with enrichment enabled. -/
def c7Cfg : GeminiConfig :=
  { chunk_size := some 70000
    language := "English".toList
    metadata_enhancement_enabled := true
    phase2_model_id := "zai/glm-4.7-flash".toList }

end BodhiFlow

namespace BodhiFlow

/-! ## Lemmas: paragraph splitting and joining -/

theorem joinSep_cons_cons (sep p q : List Char) (ps : List (List Char)) :
    joinSep sep (p :: q :: ps) = p ++ sep ++ joinSep sep (q :: ps) := rfl

theorem consHead_ne_nil (c : Char) (l : List (List Char)) : consHead c l ≠ [] := by
  cases l <;> simp [consHead]

theorem splitParas_ne_nil (l : List Char) : splitParas l ≠ [] := by
  induction l using splitParas.induct with
  | case1 => simp [splitParas]
  | case2 c rest h ih => rw [splitParas]; simp only [if_pos h]; simp
  | case3 c rest h ih => rw [splitParas]; simp only [if_neg h]; exact consHead_ne_nil _ _

theorem joinSep_consHead (sep : List Char) (c : Char) (l : List (List Char)) (h : l ≠ []) :
    joinSep sep (consHead c l) = c :: joinSep sep l := by
  match l with
  | [] => exact absurd rfl h
  | [p] => rfl
  | p :: q :: ps => rfl

/-- Splitting on the blank-line separator and joining back is the identity:
`"\n\n".join(text.split("\n\n")) == text`. -/
theorem joinSep_splitParas (l : List Char) : joinSep blankSep (splitParas l) = l := by
  induction l using splitParas.induct with
  | case1 => rw [splitParas]; rfl
  | case2 c rest h ih =>
    rw [splitParas]; simp only [if_pos h]
    obtain ⟨p, ps, hps⟩ := List.exists_cons_of_ne_nil (splitParas_ne_nil rest.tail)
    rw [hps, joinSep_cons_cons, ← hps, ih]
    obtain ⟨hc, hh⟩ := h
    cases rest with
    | nil => simp at hh
    | cons d ds => simp at hh; simp [hc, hh, blankSep, joinSep]
  | case3 c rest h ih =>
    rw [splitParas]; simp only [if_neg h]
    rw [joinSep_consHead _ _ _ (splitParas_ne_nil rest), ih]

theorem joinSep_append (sep : List Char) (xs ys : List (List Char)) (hx : xs ≠ []) (hy : ys ≠ []) :
    joinSep sep (xs ++ ys) = joinSep sep xs ++ sep ++ joinSep sep ys := by
  induction xs with
  | nil => exact absurd rfl hx
  | cons p ps ih =>
    cases ps with
    | nil =>
      cases ys with
      | nil => exact absurd rfl hy
      | cons q qs => simp [joinSep_cons_cons, joinSep]
    | cons q qs =>
      simp only [List.cons_append, joinSep_cons_cons]
      have := ih (by simp)
      simp only [List.cons_append] at this
      rw [this]
      simp [List.append_assoc, joinSep_cons_cons]

theorem join_ne_nil_of_all {a : Type} (pss : List (List a)) (h : pss ≠ [])
    (hall : ∀ x ∈ pss, x ≠ []) : pss.flatten ≠ [] := by
  cases pss with
  | nil => exact absurd rfl h
  | cons q qs =>
    simp only [List.flatten_cons]
    have : q ≠ [] := hall q (by simp)
    cases q with
    | nil => exact absurd rfl this
    | cons x xs => simp

theorem joinSep_map_joinSep (sep : List Char) (pss : List (List (List Char)))
    (hall : ∀ x ∈ pss, x ≠ []) :
    joinSep sep (pss.map (joinSep sep)) = joinSep sep pss.flatten := by
  induction pss with
  | nil => rfl
  | cons ps pss ih =>
    cases pss with
    | nil => simp [joinSep]
    | cons qs qss =>
      have h1 : ps ≠ [] := hall ps (by simp)
      have hall2 : ∀ x ∈ qs :: qss, x ≠ [] := fun x hx => hall x (by simp [hx])
      have h2 : (qs :: qss).flatten ≠ [] := join_ne_nil_of_all _ (by simp) hall2
      rw [List.flatten_cons, joinSep_append sep ps (qs :: qss).flatten h1 h2,
        ← ih hall2, List.map_cons, List.map_cons, joinSep_cons_cons]

/-- The chunking fold keeps the chunks equal to a partition of the processed
paragraphs: every completed chunk is the blank-line join of a non-empty run of
consecutive paragraphs, and the runs plus the current chunk cover exactly the
processed paragraphs in order. -/
theorem chunk_fold_spec (cs : Nat) (paras : List (List Char)) :
    ∀ (pss : List (List (List Char))) (cur : List (List Char)) (cwc : Nat),
    (∀ x ∈ pss, x ≠ []) →
    ∃ (qss : List (List (List Char))) (cur2 : List (List Char)) (c2 : Nat),
      paras.foldl (chunkStep cs) ⟨pss.map (joinSep blankSep), cur, cwc⟩ =
        ⟨qss.map (joinSep blankSep), cur2, c2⟩ ∧
      (∀ x ∈ qss, x ≠ []) ∧
      qss.flatten ++ cur2 = pss.flatten ++ cur ++ paras ∧
      (cur ≠ [] → cur2 ≠ []) ∧ (paras ≠ [] → cur2 ≠ []) := by
  induction paras with
  | nil =>
    intro pss cur cwc hall
    exact ⟨pss, cur, cwc, rfl, hall, by simp, fun h => h, fun h => absurd rfl h⟩
  | cons p rest ih =>
    intro pss cur cwc hall
    simp only [List.foldl_cons]
    by_cases hb : cwc + countWords p > cs ∧ cur ≠ []
    · have hstep : chunkStep cs ⟨pss.map (joinSep blankSep), cur, cwc⟩ p =
        ⟨(pss ++ [cur]).map (joinSep blankSep), [p], countWords p⟩ := by
        simp [chunkStep, hb, List.map_append]
      rw [hstep]
      have hall2 : ∀ x ∈ pss ++ [cur], x ≠ [] := by
        intro x hx
        rcases List.mem_append.mp hx with h | h
        · exact hall x h
        · simp at h; subst h; exact hb.2
      obtain ⟨qss, cur2, c2, heq, hq, hjoin, hcur, hrest⟩ :=
        ih (pss ++ [cur]) [p] (countWords p) hall2
      refine ⟨qss, cur2, c2, heq, hq, ?_, fun _ => hcur (by simp), fun _ => hcur (by simp)⟩
      rw [hjoin]
      simp [List.append_assoc]
    · have hstep : chunkStep cs ⟨pss.map (joinSep blankSep), cur, cwc⟩ p =
        ⟨pss.map (joinSep blankSep), cur ++ [p], cwc + countWords p⟩ := by
        simp only [chunkStep]
        rw [if_neg hb]
      rw [hstep]
      obtain ⟨qss, cur2, c2, heq, hq, hjoin, hcur, hrest⟩ :=
        ih pss (cur ++ [p]) (cwc + countWords p) hall
      refine ⟨qss, cur2, c2, heq, hq, ?_, fun _ => hcur (by simp), fun _ => hcur (by simp)⟩
      rw [hjoin]
      simp [List.append_assoc]

/-- The chunks returned by `split_text_into_chunks` are exactly the blank-line
joins of a partition of the text's paragraphs into non-empty consecutive runs. -/
theorem split_chunks_partition (text : List Char) (cs : Nat) :
    ∃ qss : List (List (List Char)), (∀ x ∈ qss, x ≠ []) ∧
      split_text_into_chunks text cs = qss.map (joinSep blankSep) ∧
      qss.flatten = splitParas text ∧ qss ≠ [] := by
  obtain ⟨qss, cur2, c2, heq, hq, hjoin, _, hrest⟩ :=
    chunk_fold_spec cs (splitParas text) [] [] 0 (by simp)
  have hcur2 : cur2 ≠ [] := hrest (splitParas_ne_nil text)
  refine ⟨qss ++ [cur2], ?_, ?_, ?_, by simp⟩
  · intro x hx
    rcases List.mem_append.mp hx with h | h
    · exact hq x h
    · simp at h; subst h; exact hcur2
  · simp only [split_text_into_chunks]
    rw [show ((splitParas text).foldl (chunkStep cs) ⟨[], [], 0⟩) =
      (⟨qss.map (joinSep blankSep), cur2, c2⟩ : ChunkState) from by
        have := heq; simpa using this]
    simp [hcur2, List.map_append]
  · rw [List.flatten_append]
    simpa using hjoin

/-! ## Lemmas: the chunk refinement loop -/

theorem refineChunksLoop_eq_mapIdx (llm : List Char → List Char)
    (pwl : List Char) (n : Nat) (chunks : List (List Char)) :
    refineChunksLoop llm pwl n chunks =
      chunks.mapIdx (fun i chunk =>
        if n + i = 0 then llm (pwl ++ chunk)
        else llm (pwl ++ continuationNote ++ chunk)) := by
  induction chunks generalizing n with
  | nil => rfl
  | cons c rest ih =>
    rw [refineChunksLoop, List.mapIdx_cons, ih (n + 1)]
    have hG : (fun i chunk => if n + 1 + i = 0 then llm (pwl ++ chunk)
        else llm (pwl ++ continuationNote ++ chunk)) =
        (fun (i : Nat) (chunk : List Char) => if n + (i + 1) = 0 then llm (pwl ++ chunk)
        else llm (pwl ++ continuationNote ++ chunk)) := by
      funext i chunk
      rw [show n + 1 + i = n + (i + 1) from by omega]
    rw [hG]
    simp only [Nat.add_zero]

/-! ## Claim theorems -/

/-- C8: for every expanded source list and every 1-based start/end pair
(start at least 1), `_apply_range` keeps exactly the items from position
`start_index` through position `end_index` inclusive, with `end_index = 0`
meaning through the end of the list: the result is the suffix from position
`start_index`, truncated at position `end_index` (or the list's end). -/
theorem C8_apply_range_slices {α : Type} (items : List α) (start_index end_index : Nat)
    (h : 1 ≤ start_index) :
    _apply_range items start_index end_index =
      (items.drop (start_index - 1)).take
        ((if end_index = 0 then items.length else end_index) - (start_index - 1)) := by
  unfold _apply_range
  by_cases he : end_index = 0
  · subst he
    rw [if_neg (by omega), if_pos rfl, ← List.length_drop (start_index - 1) items,
      List.take_length]
  · rw [if_pos (Nat.pos_of_ne_zero he), if_neg he, List.drop_take]

/-- Witness for C8: the spec's 10-item examples. -/
theorem C8_witness :
    (_apply_range [1,2,3,4,5,6,7,8,9,10] 3 5 =
      (([1,2,3,4,5,6,7,8,9,10] : List Nat).drop (3 - 1)).take
        ((if 5 = 0 then ([1,2,3,4,5,6,7,8,9,10] : List Nat).length else 5) - (3 - 1))) ∧
    _apply_range [1,2,3,4,5,6,7,8,9,10] 3 0 = [3,4,5,6,7,8,9,10] ∧
    _apply_range [1,2,3,4,5,6,7,8,9,10] 3 5 = [3,4,5] ∧
    _apply_range [1,2,3,4,5,6,7,8,9,10] 1 1 = [1] :=
  ⟨C8_apply_range_slices [1,2,3,4,5,6,7,8,9,10] 3 5 (by decide), by decide, by decide, by decide⟩

/-- C9: selecting neither phase makes flow construction fail with the
configuration error (before any stage could run, since construction precedes
`flow.run`); any selection with at least one phase returns the matching
topology: full when both, phase-1-only when only phase 1, phase-2-only when
only phase 2. -/
theorem C9_flow_selection (run_phase_1 run_phase_2 : Bool) :
    create_flow_for_phases run_phase_1 run_phase_2 =
      match run_phase_1, run_phase_2 with
      | true, true => .ok create_bodhi_flow
      | true, false => .ok create_phase_1_only_flow
      | false, true => .ok create_phase_2_only_flow
      | false, false =>
        .error ("At least one phase must be selected (run_phase_1 or run_phase_2)".toList) := by
  cases run_phase_1 <;> cases run_phase_2 <;> rfl

/-- C2: the effective Phase-1 worker count is the minimum of the requested
count and the ASR model's declared concurrency ceiling; with no declared
ceiling the requested count is used unchanged. -/
theorem C2_capped_phase1_workers (models : List AsrModelEntry) (requested : Nat)
    (asr_model_id : List Char) :
    (∀ cap, get_asr_model_max_concurrency models asr_model_id = some cap →
      _capped_phase1_workers models requested asr_model_id = min requested cap) ∧
    (get_asr_model_max_concurrency models asr_model_id = none →
      _capped_phase1_workers models requested asr_model_id = requested) := by
  constructor
  · intro cap hcap
    simp [_capped_phase1_workers, hcap]
  · intro hnone
    simp [_capped_phase1_workers, hnone]

/-- Witness for C2: a model declaring ceiling 5 caps a request of 8 to 5; a
model id with no entry leaves the request unchanged. -/
theorem C2_witness :
    _capped_phase1_workers [⟨"zai/glm-asr-2512".toList, some 5⟩] 8 ("zai/glm-asr-2512".toList)
      = min 8 5 ∧
    _capped_phase1_workers [⟨"zai/glm-asr-2512".toList, some 5⟩] 8 ("openai/gpt-4o-transcribe".toList)
      = 8 :=
  ⟨(C2_capped_phase1_workers [⟨"zai/glm-asr-2512".toList, some 5⟩] 8
      "zai/glm-asr-2512".toList).1 5 (by decide),
   (C2_capped_phase1_workers [⟨"zai/glm-asr-2512".toList, some 5⟩] 8
      "openai/gpt-4o-transcribe".toList).2 (by decide)⟩

/-- C10: joining the chunks returned by `split_text_into_chunks` with the
blank-line separator reproduces the original text exactly (no paragraph is
dropped, duplicated or reordered), and the chunk list is non-empty whenever
the text is non-empty. -/
theorem C10_chunk_join_roundtrip (text : List Char) (chunk_size : Nat)
    (h : 0 < chunk_size) :
    joinSep blankSep (split_text_into_chunks text chunk_size) = text ∧
    (text ≠ [] → split_text_into_chunks text chunk_size ≠ []) := by
  obtain ⟨qss, hall, heq, hflat, hne⟩ := split_chunks_partition text chunk_size
  constructor
  · rw [heq, joinSep_map_joinSep _ _ hall, hflat, joinSep_splitParas]
  · intro _
    rw [heq]
    simpa using hne

/-- Witness for C10: a three-paragraph text split with budget 2. -/
theorem C10_witness :
    joinSep blankSep (split_text_into_chunks ("ab cd\n\nef gh\n\nij".toList) 2) =
      "ab cd\n\nef gh\n\nij".toList ∧
    ("ab cd\n\nef gh\n\nij".toList ≠ [] →
      split_text_into_chunks ("ab cd\n\nef gh\n\nij".toList) 2 ≠ []) :=
  C10_chunk_join_roundtrip ("ab cd\n\nef gh\n\nij".toList) 2 (by decide)

/-- C3: refinement of a text whose word count exceeds the configured
chunk size (for a non-verbatim template) refines the greedily accumulated
paragraph chunks one by one — the first with the language-substituted prompt,
every later one with the explicit continuation framing — and joins the
results with a blank-line separator; a template containing the verbatim
placeholder token is sent whole, with the placeholder replaced by the
transcript and with no chunking and no language substitution. -/
theorem C3_refine_chunked (llm : List Char → List Char)
    (text template language : List Char) (chunk_size : Nat) (h : 0 < chunk_size) :
    (containsTok fullTranscriptTok template = true →
      refine_text_with_llm llm text template language (some chunk_size) =
        llm (replaceAll fullTranscriptTok text template)) ∧
    (containsTok fullTranscriptTok template = false →
      countWords text > chunk_size →
      refine_text_with_llm llm text template language (some chunk_size) =
        joinSep blankSep
          ((split_text_into_chunks text chunk_size).mapIdx (fun i chunk =>
            if i = 0 then llm (replaceAll languageTok language template ++ chunk)
            else llm (replaceAll languageTok language template ++ continuationNote ++ chunk)))) := by
  constructor
  · intro hverb
    simp [refine_text_with_llm, hverb]
  · intro hverb hbig
    have hne : chunk_size ≠ 0 := by omega
    simp only [refine_text_with_llm, hverb, Bool.false_eq_true, if_false, Option.getD_some]
    rw [if_pos ⟨hne, hbig⟩, refineChunksLoop_eq_mapIdx]
    simp

/-- Witness for C3: a 6-word text with chunk budget 2 (chunked path), and a
verbatim template (whole-text path). -/
theorem C3_witness :
    (containsTok fullTranscriptTok ("Refine in [Language]: ".toList) = false →
      countWords ("w1 w2\n\nw3 w4\n\nw5 w6".toList) > 2 →
      refine_text_with_llm (fun p => p) "w1 w2\n\nw3 w4\n\nw5 w6".toList
          "Refine in [Language]: ".toList ("English".toList) (some 2) =
        joinSep blankSep
          ((split_text_into_chunks ("w1 w2\n\nw3 w4\n\nw5 w6".toList) 2).mapIdx (fun i chunk =>
            if i = 0 then
              (fun p => p)
                (replaceAll languageTok ("English".toList) ("Refine in [Language]: ".toList) ++ chunk)
            else
              (fun p => p)
                (replaceAll languageTok ("English".toList) ("Refine in [Language]: ".toList) ++
                  continuationNote ++ chunk)))) ∧
    (containsTok fullTranscriptTok ("Minutes of [full_transcript_text]".toList) = true →
      refine_text_with_llm (fun p => p) "w1 w2".toList
          "Minutes of [full_transcript_text]".toList ("English".toList) (some 2) =
        (fun p => p)
          (replaceAll fullTranscriptTok ("w1 w2".toList)
            "Minutes of [full_transcript_text]".toList)) :=
  ⟨(C3_refine_chunked (fun p => p) "w1 w2\n\nw3 w4\n\nw5 w6".toList
      "Refine in [Language]: ".toList ("English".toList) 2 (by decide)).2,
   (C3_refine_chunked (fun p => p) "w1 w2".toList
      "Minutes of [full_transcript_text]".toList ("English".toList) 2 (by decide)).1⟩

/-! ## Lemmas: the acquisition coordinator loop -/

theorem dictInsert_fresh {β : Type} (m : List (List Char × β)) (k : List Char) (v : β)
    (h : ∀ p ∈ m, p.1 ≠ k) : dictInsert m k v = m ++ [(k, v)] := by
  rw [dictInsert, if_neg]
  intro hc
  rw [List.any_eq_true] at hc
  obtain ⟨p, hp, hpk⟩ := hc
  exact h p hp (by simpa using hpk)

theorem coordLoop_no_stop (stopCheck : Nat → Bool) (hstop : ∀ k, stopCheck k = false) :
    ∀ (jobs : List JobSpec) (polls : Nat) (acc : List (List Char × AcqResult)),
    (∀ p ∈ acc, p.1 ∉ jobs.map JobSpec.title) →
    (jobs.map JobSpec.title).Nodup →
    coordLoop stopCheck jobs polls acc =
      acc ++ jobs.map (fun j => (j.title, interpOutcome j)) := by
  intro jobs
  induction jobs with
  | nil => intro polls acc _ _; simp [coordLoop]
  | cons j rest ih =>
    intro polls acc hfresh hnodup
    rw [coordLoop, if_neg (by simp [hstop polls])]
    have hj : ∀ p ∈ acc, p.1 ≠ j.title := by
      intro p hp
      have := hfresh p hp
      simp only [List.map_cons, List.mem_cons, not_or] at this
      exact this.1
    have hstep :
        (match j.outcome with
          | .ok r => dictInsert acc j.title r
          | .error msg => dictInsert acc j.title (exceptionResult j.title msg)) =
        acc ++ [(j.title, interpOutcome j)] := by
      cases hout : j.outcome with
      | ok r =>
        simp only [interpOutcome, hout]
        exact dictInsert_fresh acc j.title r hj
      | error msg =>
        simp only [interpOutcome, hout]
        exact dictInsert_fresh acc j.title _ hj
    rw [hstep, ih (polls + 1) (acc ++ [(j.title, interpOutcome j)]) ?_ ?_]
    · simp
    · intro p hp
      rcases List.mem_append.mp hp with hpa | hpj
      · intro hmem
        have := hfresh p hpa
        simp only [List.map_cons, List.mem_cons, not_or] at this
        exact this.2 hmem
      · simp only [List.mem_singleton] at hpj
        subst hpj
        simp only [List.map_cons, List.nodup_cons] at hnodup
        exact hnodup.1
    · simp only [List.map_cons, List.nodup_cons] at hnodup
      exact hnodup.2

theorem coordLoop_keys_are_taken (stopCheck : Nat → Bool) :
    ∀ (jobs : List JobSpec) (polls : Nat) (acc : List (List Char × AcqResult)),
    (∀ p ∈ acc, p.1 ∉ jobs.map JobSpec.title) →
    (jobs.map JobSpec.title).Nodup →
    ∃ m, m ≤ jobs.length ∧
      coordLoop stopCheck jobs polls acc =
        acc ++ (jobs.take m).map (fun j => (j.title, interpOutcome j)) := by
  intro jobs
  induction jobs with
  | nil => intro polls acc _ _; exact ⟨0, Nat.le_refl 0, by simp [coordLoop]⟩
  | cons j rest ih =>
    intro polls acc hfresh hnodup
    by_cases hstop : stopCheck polls = true
    · exact ⟨0, by omega, by rw [coordLoop, if_pos hstop]; simp⟩
    · rw [coordLoop, if_neg hstop]
      have hj : ∀ p ∈ acc, p.1 ≠ j.title := by
        intro p hp
        have := hfresh p hp
        simp only [List.map_cons, List.mem_cons, not_or] at this
        exact this.1
      have hstep :
          (match j.outcome with
            | .ok r => dictInsert acc j.title r
            | .error msg => dictInsert acc j.title (exceptionResult j.title msg)) =
          acc ++ [(j.title, interpOutcome j)] := by
        cases hout : j.outcome with
        | ok r =>
          simp only [interpOutcome, hout]
          exact dictInsert_fresh acc j.title r hj
        | error msg =>
          simp only [interpOutcome, hout]
          exact dictInsert_fresh acc j.title _ hj
      rw [hstep]
      have hfresh2 : ∀ p ∈ acc ++ [(j.title, interpOutcome j)],
          p.1 ∉ rest.map JobSpec.title := by
        intro p hp
        rcases List.mem_append.mp hp with hpa | hpj
        · intro hmem
          have := hfresh p hpa
          simp only [List.map_cons, List.mem_cons, not_or] at this
          exact this.2 hmem
        · simp only [List.mem_singleton] at hpj
          subst hpj
          simp only [List.map_cons, List.nodup_cons] at hnodup
          exact hnodup.1
      have hnodup2 : (rest.map JobSpec.title).Nodup := by
        simp only [List.map_cons, List.nodup_cons] at hnodup
        exact hnodup.2
      obtain ⟨m, hm, heq⟩ := ih (polls + 1) (acc ++ [(j.title, interpOutcome j)]) hfresh2 hnodup2
      refine ⟨m + 1, by simp only [List.length_cons]; omega, ?_⟩
      rw [heq]
      simp

theorem lookup_map_assoc (f : JobSpec → AcqResult) :
    ∀ (jobs : List JobSpec), (jobs.map JobSpec.title).Nodup →
    ∀ j ∈ jobs, lookupDict (jobs.map fun j2 => (j2.title, f j2)) j.title = some (f j) := by
  intro jobs
  induction jobs with
  | nil => simp
  | cons j0 rest ih =>
    intro hnodup j hj
    simp only [List.map_cons, List.nodup_cons] at hnodup
    rcases List.mem_cons.mp hj with heq | hmem
    · subst heq
      simp [lookupDict, List.find?_cons_of_pos]
    · have hne : (j0.title == j.title) = false := by
        rw [beq_eq_false_iff_ne]
        intro hc
        exact hnodup.1 (hc ▸ List.mem_map_of_mem JobSpec.title hmem)
      rw [lookupDict, List.map_cons, List.find?_cons_of_neg _ (by simpa using hne)]
      exact ih hnodup.2 j hmem

/-! ## Claims C5 and C1 -/

/-- C5: with no cancellation and distinct job titles, every submitted job
gets exactly one entry in the result map; a job whose execution raises is
recorded as the exception-path failure result carrying the exception's
message, and every other job's entry is exactly its own outcome, unaffected
by the raising job. -/
theorem C5_job_isolation (jobs : List JobSpec) (stopCheck : Nat → Bool)
    (hstop : ∀ k, stopCheck k = false)
    (hnodup : (jobs.map JobSpec.title).Nodup) :
    (coordinatorExec jobs stopCheck).length = jobs.length ∧
    ∀ j ∈ jobs, lookupDict (coordinatorExec jobs stopCheck) j.title =
      some (interpOutcome j) := by
  have hexec : coordinatorExec jobs stopCheck =
      jobs.map (fun j => (j.title, interpOutcome j)) := by
    rw [coordinatorExec, if_neg (by simp [hstop 0])]
    rw [coordLoop_no_stop stopCheck hstop jobs 1 [] (by simp) hnodup]
    simp
  rw [hexec]
  exact ⟨by simp, lookup_map_assoc interpOutcome jobs hnodup⟩

/-- Witness for C5: five jobs where job 3 raises; the map has five entries,
job 3 is a failure carrying the exception message, jobs 1, 2, 4, 5 carry
their own results. -/
theorem C5_witness :
    ((coordinatorExec c5Jobs (fun _ => false)).length = c5Jobs.length ∧
      ∀ j ∈ c5Jobs, lookupDict (coordinatorExec c5Jobs (fun _ => false)) j.title =
        some (interpOutcome j)) ∧
    (lookupDict (coordinatorExec c5Jobs (fun _ => false)) "J3".toList).map AcqResult.status =
      some .failure ∧
    (lookupDict (coordinatorExec c5Jobs (fun _ => false)) "J3".toList).map AcqResult.error =
      some (some ("boom".toList)) ∧
    (lookupDict (coordinatorExec c5Jobs (fun _ => false)) "J4".toList).map AcqResult.status =
      some .success :=
  ⟨C5_job_isolation c5Jobs (fun _ => false) (fun _ => rfl) (by decide),
   by decide, by decide, by decide⟩

/-- C1 as stated is false: when cancellation is requested mid-run the
coordinator breaks out of the collection loop, so jobs that did not run are
absent from the result map instead of receiving a terminal cancelled/failure
marker. Concretely: three submitted jobs, cancellation observed from the
second poll onward — the map holds one entry and the other two titles are
missing. -/
theorem C1_counterexample :
    c1Jobs.length = 3 ∧
    (coordinatorExec c1Jobs (fun k => decide (2 ≤ k))).length = 1 ∧
    lookupDict (coordinatorExec c1Jobs (fun k => decide (2 ≤ k))) "B".toList = none ∧
    lookupDict (coordinatorExec c1Jobs (fun k => decide (2 ≤ k))) "C".toList = none := by
  decide

/-- C1 amended: with distinct job titles, the result map's keys are always a
prefix of the completion-ordered job titles — every run without cancellation
has exactly one entry per submitted job, and a cancelled run keeps the
already-collected entries and stops, leaving the remaining jobs absent (no
cancelled marker is recorded). -/
theorem C1_results_per_job (jobs : List JobSpec) (stopCheck : Nat → Bool)
    (hnodup : (jobs.map JobSpec.title).Nodup) :
    ((∀ k, stopCheck k = false) →
      (coordinatorExec jobs stopCheck).map Prod.fst = jobs.map JobSpec.title) ∧
    ∃ m, m ≤ jobs.length ∧
      (coordinatorExec jobs stopCheck).map Prod.fst = (jobs.map JobSpec.title).take m := by
  constructor
  · intro hstop
    rw [coordinatorExec, if_neg (by simp [hstop 0]),
      coordLoop_no_stop stopCheck hstop jobs 1 [] (by simp) hnodup]
    simp [List.map_map]
  · by_cases hstop0 : stopCheck 0 = true
    · exact ⟨0, by omega, by rw [coordinatorExec, if_pos hstop0]; simp⟩
    · rw [coordinatorExec, if_neg hstop0]
      obtain ⟨m, hm, heq⟩ :=
        coordLoop_keys_are_taken stopCheck jobs 1 [] (by simp) hnodup
      refine ⟨m, hm, ?_⟩
      rw [heq]
      simp [List.map_map, ← List.map_take]

/-- Witness for C1 (amended): the three-job list without cancellation has one
entry per job, and in general its keys are a prefix of the titles. -/
theorem C1_witness :
    ((∀ k, (fun _ => false : Nat → Bool) k = false) →
      (coordinatorExec c1Jobs (fun _ => false)).map Prod.fst = c1Jobs.map JobSpec.title) ∧
    ∃ m, m ≤ c1Jobs.length ∧
      (coordinatorExec c1Jobs (fun _ => false)).map Prod.fst =
        (c1Jobs.map JobSpec.title).take m :=
  C1_results_per_job c1Jobs (fun _ => false) (by decide)

/-! ## Claim C4 -/

/-- C4: for transcript files with pairwise-distinct derived titles and styles
with distinct names (and no per-job overrides), the task builder produces
exactly N×M tasks whose (video_title, style_name) identities are pairwise
distinct, and every task's output path is the pure function `outputFileFor`
of (output_dir, video_title, style_name) — so identical inputs always yield
identical paths. -/
theorem C4_cross_product (transcript_files : List (List Char))
    (styles_data : List (List Char × List Char)) (output_dir : List Char)
    (hT : (transcript_files.map videoTitleOf).Nodup)
    (hS : (styles_data.map Prod.fst).Nodup) :
    (create_refinement_tasks transcript_files styles_data output_dir none).length =
      transcript_files.length * styles_data.length ∧
    ((create_refinement_tasks transcript_files styles_data output_dir none).map
      (fun t => (t.video_title, t.style_name))).Nodup ∧
    ∀ t ∈ create_refinement_tasks transcript_files styles_data output_dir none,
      t.output_file = outputFileFor output_dir t.video_title t.style_name := by
  have hpairs : (create_refinement_tasks transcript_files styles_data output_dir none).map
      (fun t => (t.video_title, t.style_name)) =
      (transcript_files.map videoTitleOf) ×ˢ (styles_data.map Prod.fst) := by
    show _ = (transcript_files.map videoTitleOf).flatMap
      (fun a => (styles_data.map Prod.fst).map (Prod.mk a))
    rw [create_refinement_tasks, List.map_flatMap, List.flatMap_map]
    simp [Function.comp_def, List.map_map]
  refine ⟨?_, ?_, ?_⟩
  · have hlen := congrArg List.length hpairs
    simpa [List.length_product] using hlen
  · rw [hpairs]
    exact hT.product hS
  · intro t ht
    simp only [create_refinement_tasks, List.mem_flatMap, List.mem_map] at ht
    obtain ⟨tf, htf, sd, hsd, rfl⟩ := ht
    rfl

/-- Witness for C4: 3 transcripts and 2 styles yield exactly 6 tasks with
distinct identities and deterministic paths. -/
theorem C4_witness :
    (create_refinement_tasks
      ["i/A_raw_transcript.txt".toList, "i/B_raw_transcript.txt".toList,
        "i/C_raw_transcript.txt".toList]
      [("Summary".toList, "ps".toList), ("Educational".toList, "pe".toList)]
      "out".toList none).length = 6 ∧
    ((create_refinement_tasks
      ["i/A_raw_transcript.txt".toList, "i/B_raw_transcript.txt".toList,
        "i/C_raw_transcript.txt".toList]
      [("Summary".toList, "ps".toList), ("Educational".toList, "pe".toList)]
      "out".toList none).map (fun t => (t.video_title, t.style_name))).Nodup ∧
    ∀ t ∈ create_refinement_tasks
      ["i/A_raw_transcript.txt".toList, "i/B_raw_transcript.txt".toList,
        "i/C_raw_transcript.txt".toList]
      [("Summary".toList, "ps".toList), ("Educational".toList, "pe".toList)]
      "out".toList none,
      t.output_file = outputFileFor ("out".toList) t.video_title t.style_name :=
  C4_cross_product
    ["i/A_raw_transcript.txt".toList, "i/B_raw_transcript.txt".toList,
      "i/C_raw_transcript.txt".toList]
    [("Summary".toList, "ps".toList), ("Educational".toList, "pe".toList)]
    "out".toList (by decide) (by decide)

/-! ## Claim C6 -/

/-- Evaluation of `process_single_video_acquisition` when the per-source-type logic raises. -/
theorem process_single_of_error (env : AcqEnv) (v : VideoData) (c : AcqConfig)
    (e : List Char) (h : computeRawText env v c = .error e) :
    process_single_video_acquisition env v c =
      { status := .failure, video_title := v.original_title, transcript_file := none,
        transcript_text := none, error := some e, job_id := some v.job_id } := by
  unfold process_single_video_acquisition
  rw [h]
  rfl

/-- Evaluation of `process_single_video_acquisition` when no raw text was produced. -/
theorem process_single_of_none (env : AcqEnv) (v : VideoData) (c : AcqConfig)
    (le : Option (List Char)) (h : computeRawText env v c = .ok (none, le)) :
    process_single_video_acquisition env v c =
      { status := .failure, video_title := v.original_title, transcript_file := none,
        transcript_text := none, error := some (acquisitionErrorMsg v.source_type le),
        job_id := some v.job_id } := by
  unfold process_single_video_acquisition
  rw [h]
  rfl

/-- Evaluation of `process_single_video_acquisition` when the produced raw text is empty. -/
theorem process_single_of_empty (env : AcqEnv) (v : VideoData) (c : AcqConfig)
    (t : List Char) (le : Option (List Char)) (h : computeRawText env v c = .ok (some t, le))
    (ht : t.isEmpty = true) :
    process_single_video_acquisition env v c =
      { status := .failure, video_title := v.original_title, transcript_file := none,
        transcript_text := none, error := some (acquisitionErrorMsg v.source_type le),
        job_id := some v.job_id } := by
  unfold process_single_video_acquisition
  rw [h]
  simp [Bind.bind, Except.bind, ht, pure, Except.pure]

/-- Evaluation of `process_single_video_acquisition` when non-empty raw text was produced
and the transcript save succeeds. -/
theorem process_single_of_text (env : AcqEnv) (v : VideoData) (c : AcqConfig)
    (t : List Char) (le : Option (List Char)) (tf : List Char)
    (h : computeRawText env v c = .ok (some t, le)) (ht : t.isEmpty = false)
    (hsave : env.save_raw_transcript t v.original_title c.intermediate_dir = .ok tf) :
    process_single_video_acquisition env v c =
      { status := .success, video_title := v.original_title, transcript_file := some tf,
        transcript_text := some t, error := none, job_id := some v.job_id } := by
  unfold process_single_video_acquisition
  rw [h]
  simp [Bind.bind, Except.bind, ht, pure, Except.pure, hsave]

/-- Evaluation of `process_single_video_acquisition` when non-empty raw text was produced
but the transcript save raises. -/
theorem process_single_of_save_error (env : AcqEnv) (v : VideoData) (c : AcqConfig)
    (t : List Char) (le : Option (List Char)) (e : List Char)
    (h : computeRawText env v c = .ok (some t, le)) (ht : t.isEmpty = false)
    (hsave : env.save_raw_transcript t v.original_title c.intermediate_dir = .error e) :
    process_single_video_acquisition env v c =
      { status := .failure, video_title := v.original_title, transcript_file := none,
        transcript_text := none, error := some e, job_id := some v.job_id } := by
  unfold process_single_video_acquisition
  rw [h]
  simp [Bind.bind, Except.bind, ht, pure, Except.pure, hsave]

/-- C6: the per-job acquisition function never returns success without a
transcript: a success result always carries a transcript file and a non-empty
transcript text, and whenever the per-source-type logic produced no non-empty
raw text the result is a failure with no transcript file and an error
message. -/
theorem C6_no_empty_success (env : AcqEnv) (v : VideoData) (c : AcqConfig) :
    ((process_single_video_acquisition env v c).status = .success →
      (∃ tf, (process_single_video_acquisition env v c).transcript_file = some tf) ∧
      ∃ t, (process_single_video_acquisition env v c).transcript_text = some t ∧ t ≠ []) ∧
    (∀ res, computeRawText env v c = .ok res → optTruthy res.1 = false →
      (process_single_video_acquisition env v c).status = .failure ∧
      (process_single_video_acquisition env v c).transcript_file = none ∧
      (process_single_video_acquisition env v c).error ≠ none) := by
  constructor
  · intro hs
    cases hcr : computeRawText env v c with
    | error e =>
      rw [process_single_of_error env v c e hcr] at hs
      exact absurd hs (by simp)
    | ok pair =>
      obtain ⟨rt, le⟩ := pair
      cases rt with
      | none =>
        rw [process_single_of_none env v c le hcr] at hs
        exact absurd hs (by simp)
      | some t =>
        cases ht : t.isEmpty with
        | true =>
          rw [process_single_of_empty env v c t le hcr ht] at hs
          exact absurd hs (by simp)
        | false =>
          cases hsave : env.save_raw_transcript t v.original_title c.intermediate_dir with
          | ok tf =>
            rw [process_single_of_text env v c t le tf hcr ht hsave]
            exact ⟨⟨tf, rfl⟩, t, rfl, fun hnil => by simp [hnil] at ht⟩
          | error e =>
            rw [process_single_of_save_error env v c t le e hcr ht hsave] at hs
            exact absurd hs (by simp)
  · intro res hres hft
    obtain ⟨rt, le⟩ := res
    cases rt with
    | none =>
      rw [process_single_of_none env v c le hres]
      exact ⟨rfl, rfl, by simp⟩
    | some t =>
      have ht : t.isEmpty = true := by simpa [optTruthy] using hft
      rw [process_single_of_empty env v c t le hres ht]
      exact ⟨rfl, rfl, by simp⟩

/-- Witness for C6: a document job whose extraction yields text gives a
success carrying the transcript; the same job with empty extraction gives a
failure with no transcript file and an error. -/
theorem C6_witness :
    ((∃ tf, (process_single_video_acquisition c6EnvOk c6Video c6Cfg).transcript_file = some tf) ∧
      ∃ t, (process_single_video_acquisition c6EnvOk c6Video c6Cfg).transcript_text = some t ∧
        t ≠ []) ∧
    ((process_single_video_acquisition c6EnvNone c6Video c6Cfg).status = .failure ∧
      (process_single_video_acquisition c6EnvNone c6Video c6Cfg).transcript_file = none ∧
      (process_single_video_acquisition c6EnvNone c6Video c6Cfg).error ≠ none) :=
  ⟨(C6_no_empty_success c6EnvOk c6Video c6Cfg).1 (by decide),
   (C6_no_empty_success c6EnvNone c6Video c6Cfg).2 (none, none) rfl rfl⟩

/-! ## Claim C7 -/

/-- C7: when a task's sidecar already holds a non-empty description (or
non-empty tags), enrichment leaves that field unchanged — only absent fields
are filled in (conjuncts 3 and 4, for any enrichment outcome, including a
successful call returning different values) — and the refinement task
succeeds and writes a document whose front matter is built from the merged
metadata whatever the enrichment call did, so an enrichment failure never
fails the task (conjuncts 1 and 2 hold with no assumption on the enrichment
outcome). -/
theorem C7_enrichment_additive (env : RefineEnv) (task : RefinementTask)
    (cfg : GeminiConfig) (raw : List Char)
    (hload : env.load_raw_transcript task.transcript_file = .ok raw)
    (hsave : ∀ doc f, env.save_text_to_file doc f = .ok ())
    (henabled : cfg.metadata_enhancement_enabled = true) :
    (async_refine_single_task env task cfg).1.status = .success ∧
    (async_refine_single_task env task cfg).2 =
      some (env.build_yaml_front_matter
        { mergeEnrichment (env.load_metadata_for_transcript task.video_title)
            (env.enhance_metadata_with_llm raw (task.language.getD cfg.language)) with
          style := task.style_name
          model_used := cfg.phase2_model_id } ++
        refine_text_with_llm env.llm raw task.style_prompt (task.language.getD cfg.language)
          cfg.chunk_size) ∧
    (∀ meta enriched, meta.description ≠ [] →
      (mergeEnrichment meta enriched).description = meta.description) ∧
    (∀ meta enriched, meta.tags ≠ [] →
      (mergeEnrichment meta enriched).tags = meta.tags) := by
  refine ⟨?_, ?_, ?_, ?_⟩
  · simp [async_refine_single_task, hload, hsave, henabled, Bind.bind, Except.bind,
      pure, Except.pure]
  · simp [async_refine_single_task, hload, hsave, henabled, Bind.bind, Except.bind,
      pure, Except.pure]
  · intro meta enriched hdesc
    simp [mergeEnrichment, List.isEmpty_iff, hdesc]
  · intro meta enriched htags
    simp [mergeEnrichment, List.isEmpty_iff, htags]

/-- Witness for C7: with a sidecar holding a non-empty description and tags,
the merged metadata keeps both even when enrichment succeeds with different
values; and with a failing enrichment call the task still succeeds. -/
theorem C7_witness :
    ((async_refine_single_task c7EnvErr c7Task c7Cfg).1.status = .success ∧
      (async_refine_single_task c7EnvErr c7Task c7Cfg).2 =
        some (c7EnvErr.build_yaml_front_matter
          { mergeEnrichment (c7EnvErr.load_metadata_for_transcript c7Task.video_title)
              (c7EnvErr.enhance_metadata_with_llm ("raw words".toList)
                (c7Task.language.getD c7Cfg.language)) with
            style := c7Task.style_name
            model_used := c7Cfg.phase2_model_id } ++
          refine_text_with_llm c7EnvErr.llm ("raw words".toList) c7Task.style_prompt
            (c7Task.language.getD c7Cfg.language) c7Cfg.chunk_size) ∧
      (∀ meta enriched, meta.description ≠ [] →
        (mergeEnrichment meta enriched).description = meta.description) ∧
      (∀ meta enriched, meta.tags ≠ [] →
        (mergeEnrichment meta enriched).tags = meta.tags)) ∧
    (async_refine_single_task c7EnvOk c7Task c7Cfg).1.status = .success ∧
    (mergeEnrichment c7Meta
      (.ok ("different description".toList, ["new-tag".toList]))).description =
      "original description".toList ∧
    (mergeEnrichment c7Meta
      (.ok ("different description".toList, ["new-tag".toList]))).tags =
      ["orig-tag".toList] :=
  ⟨C7_enrichment_additive c7EnvErr c7Task c7Cfg ("raw words".toList) rfl
      (fun _ _ => rfl) rfl,
   (C7_enrichment_additive c7EnvOk c7Task c7Cfg ("raw words".toList) rfl
      (fun _ _ => rfl) rfl).1,
   by decide, by decide⟩

end BodhiFlow
